import Mathlib

/-!
# Stacked error contexts (`include/error.hpp`, `src/error.cpp`)

A shallow embedding of the two classes `ErrorContext` and `Error`.

* `std::string` is `String`; `s.size() != 0` is `s.length != 0`.
* `std::vector<T>` is `List T` in index order: `push_back x` is `xs ++ [x]`,
  `pop_back` is `List.dropLast`, the last element is the back of the vector.
* `Error::_top` is re-pointed at the back of `_contexts` by the constructor and by
  every member that grows or shrinks the vector, so `*_top` is read as the last
  element of `_contexts`.  Dereferencing `_top` when there is no context at all is
  undefined in the source; here such a step yields `none`.
* `Error` has no copy constructor of its own: the implicit one copies `_contexts` and
  leaves the copy's `_top` pointing into the vector of the object copied.
  `push(Error const&)` therefore takes its argument as an `ErrorRef`, which tells
  whether the argument is another object or the receiver itself.
-/

namespace Aby

/-! ## Data model -/

/-- The struct `ErrorContext::basicError` (error.hpp 28-31). -/
structure basicError where
  contextName : String
  message : String
deriving DecidableEq

/-- The data members of class `ErrorContext` (error.hpp 33-36). -/
structure ErrorContext where
  _contextName : String
  _errors : List basicError
  _warnings : List basicError
deriving DecidableEq

/-- The data member `_contexts` of class `Error` (error.hpp 109); `_top` is the
back of `_contexts`. -/
structure Error where
  _contexts : List ErrorContext
deriving DecidableEq

/-! ## `ErrorContext` -/

/-- The constructor `ErrorContext::ErrorContext(std::string const&)` (error.cpp 7-9). -/
def ErrorContext.init (contextName : String) : ErrorContext :=
  { _contextName := contextName, _errors := [], _warnings := [] }

/-- Member `ErrorContext::addError` (error.cpp 18-24). -/
def ErrorContext.addError (c : ErrorContext) (message : String) : ErrorContext :=
  { c with _errors := c._errors ++ [{ contextName := c._contextName, message := message }] }

/-- Member `ErrorContext::addErrors(std::vector<std::string> const&)` (error.cpp 26-35). -/
def ErrorContext.addErrors (c : ErrorContext) (messages : List String) : ErrorContext :=
  messages.foldl
    (fun acc i => { acc with _errors := acc._errors ++ [{ contextName := acc._contextName, message := i }] })
    c

/-- The name computed at the head of each iteration of the two `basicError` loops
(error.cpp 40-51 and 82-93): `name` starts as the empty string and is assigned only
in the branches shown. -/
def formatName (_contextName : String) (iContextName : String) : String :=
  if _contextName.length != 0 then
    if iContextName.length != 0 then
      _contextName ++ " > " ++ iContextName
    else
      _contextName
  else if iContextName.length != 0 then
    iContextName
  else
    ""

/-- Member `ErrorContext::addErrors(std::vector<basicError> const&)` (error.cpp 37-59). -/
def ErrorContext.addBasicErrors (c : ErrorContext) (errors : List basicError) : ErrorContext :=
  errors.foldl
    (fun acc i =>
      { acc with _errors := acc._errors ++
          [{ contextName := formatName acc._contextName i.contextName, message := i.message }] })
    c

/-- Member `ErrorContext::addWarning` (error.cpp 61-67). -/
def ErrorContext.addWarning (c : ErrorContext) (message : String) : ErrorContext :=
  { c with _warnings := c._warnings ++ [{ contextName := c._contextName, message := message }] }

/-- Member `ErrorContext::addWarnings(std::vector<std::string> const&)` (error.cpp 69-78). -/
def ErrorContext.addWarnings (c : ErrorContext) (messages : List String) : ErrorContext :=
  messages.foldl
    (fun acc i => { acc with _warnings := acc._warnings ++ [{ contextName := acc._contextName, message := i }] })
    c

/-- Member `ErrorContext::addWarnings(std::vector<basicError> const&)` (error.cpp 80-101). -/
def ErrorContext.addBasicWarnings (c : ErrorContext) (warnings : List basicError) : ErrorContext :=
  warnings.foldl
    (fun acc i =>
      { acc with _warnings := acc._warnings ++
          [{ contextName := formatName acc._contextName i.contextName, message := i.message }] })
    c

/-- Member `ErrorContext::getErrors` (error.cpp 104-106). -/
def ErrorContext.getErrors (c : ErrorContext) : List basicError := c._errors

/-- Member `ErrorContext::getWarnings` (error.cpp 108-110). -/
def ErrorContext.getWarnings (c : ErrorContext) : List basicError := c._warnings

/-- Member `ErrorContext::hasErrors` (error.cpp 112-114). -/
def ErrorContext.hasErrors (c : ErrorContext) : Bool := !c._errors.isEmpty

/-- Member `ErrorContext::hasWarnings` (error.cpp 116-118). -/
def ErrorContext.hasWarnings (c : ErrorContext) : Bool := !c._warnings.isEmpty

/-! ## `Error` -/

/-- The constructor `Error::Error(std::string const&)` (error.cpp 124-127). -/
def Error.init (contextName : String) : Error :=
  { _contexts := [] ++ [ErrorContext.init contextName] }

/-- A call `_top->f(...)` of a mutating member of `ErrorContext`: the back of
`_contexts` is replaced by the context `f` leaves behind.  With no context to point
at the call is undefined. -/
def Error.onTop (e : Error) (f : ErrorContext → ErrorContext) : Option Error :=
  match e._contexts.getLast? with
  | none => none
  | some top => some { _contexts := e._contexts.dropLast ++ [f top] }

/-- Member `Error::addError` (error.cpp 129-131). -/
def Error.addError (e : Error) (errorMessage : String) : Option Error :=
  e.onTop (fun top => top.addError errorMessage)

/-- Member `Error::addErrors` (error.cpp 133-135). -/
def Error.addErrors (e : Error) (errorMessages : List String) : Option Error :=
  e.onTop (fun top => top.addErrors errorMessages)

/-- Member `Error::addWarning` (error.cpp 137-139). -/
def Error.addWarning (e : Error) (warningMessage : String) : Option Error :=
  e.onTop (fun top => top.addWarning warningMessage)

/-- Member `Error::addWarnings` (error.cpp 141-143). -/
def Error.addWarnings (e : Error) (warningMessages : List String) : Option Error :=
  e.onTop (fun top => top.addWarnings warningMessages)

/-- Member `Error::getCurrentContext` (error.cpp 145-147): the context `_top` points at. -/
def Error.getCurrentContext (e : Error) : Option ErrorContext :=
  e._contexts.getLast?

/-- Member `Error::pop` (error.cpp 149-165): the returned copy and the aggregator left behind. -/
def Error.pop (e : Error) : Option (ErrorContext × Error) :=
  match e._contexts.getLast? with
  | none => none
  | some ec =>
    if e._contexts.length == 1 then
      some (ec, { _contexts := e._contexts.dropLast ++ [ErrorContext.init ""] })
    else
      some (ec, { _contexts := e._contexts.dropLast })

/-- Member `Error::push(std::string const&)` (error.cpp 179-182). -/
def Error.push (e : Error) (contextName : String) : Error :=
  { _contexts := e._contexts ++ [ErrorContext.init contextName] }

/-- Member `Error::fold` (error.cpp 184-188). -/
def Error.fold (e : Error) : Option Error :=
  match e.pop with
  | none => none
  | some (ec, e1) =>
    match e1.onTop (fun top => top.addBasicErrors ec.getErrors) with
    | none => none
    | some e2 => e2.onTop (fun top => top.addBasicWarnings ec.getWarnings)

/-- Member `Error::foldToError` (error.cpp 190-194). -/
def Error.foldToError (e : Error) : Option Error :=
  match e.pop with
  | none => none
  | some (ec, e1) =>
    match e1.onTop (fun top => top.addBasicErrors ec.getErrors) with
    | none => none
    | some e2 => e2.onTop (fun top => top.addBasicErrors ec.getWarnings)

/-- Member `Error::foldToWarning` (error.cpp 196-200). -/
def Error.foldToWarning (e : Error) : Option Error :=
  match e.pop with
  | none => none
  | some (ec, e1) =>
    match e1.onTop (fun top => top.addBasicWarnings ec.getErrors) with
    | none => none
    | some e2 => e2.onTop (fun top => top.addBasicWarnings ec.getWarnings)

/-- The loop `while(copy._contexts.size() != 1) copy.fold();` of
`Error::push(Error const&)` (error.cpp 170-172), with a bound on the number of
iterations: `none` when the bound is used up or an iteration is undefined. -/
def Error.foldLoop : Nat → Error → Option Error
  | fuel, copy =>
    if copy._contexts.length != 1 then
      match fuel with
      | 0 => none
      | fuel + 1 =>
        match copy.fold with
        | none => none
        | some copy1 => Error.foldLoop fuel copy1
    else
      some copy

/-- What the `Error const&` argument of `Error::push(Error const&)` refers to: an
aggregator that is another object than the receiver, or the receiver itself
(`r.push(r)`).  In the second case `reallocates` tells whether the receiver's vector is
full (`_contexts.size() == _contexts.capacity()`), so that the `push_back` of `push()`
moves its contexts to a new buffer and frees the old one; it is so for an aggregator
that has held a single context since its construction. -/
inductive ErrorRef where
  | other (error : Error)
  | receiver (reallocates : Bool)

/-- The aggregator an `ErrorRef` refers to, for the receiver `e`. -/
def ErrorRef.target (e : Error) : ErrorRef → Error
  | .other error => error
  | .receiver _ => e

/-- The context `copy._top` points at when `Error::push(Error const&)` reads it
(error.cpp 175-176), after `push()` has run on the receiver `e`.  The implicit copy
`Error copy = error;` (error.cpp 168) leaves `copy._top` equal to `error._top`.  A call
of `fold` re-points it at the back of the copy's own vector (error.cpp 162), and the
loop makes one unless the copy has exactly one context.  Without such a call it still
points at the back of the argument's vector: a live context when the argument is
another object, or the receiver itself with room left in its vector, and a freed one
(`none`) when the argument is the receiver and `push()` has reallocated its vector. -/
def Error.copyTop (e : Error) (error : ErrorRef) (copy : Error) : Option ErrorContext :=
  if (error.target e)._contexts.length != 1 then
    copy.getCurrentContext
  else
    match error with
    | .other o => o.getCurrentContext
    | .receiver reallocates => if reallocates then none else e.getCurrentContext

/-- Member `Error::push(Error const&)` (error.cpp 167-177).  The loop is run with one unit
of fuel per context of the copy. -/
def Error.pushError (e : Error) (error : ErrorRef) : Option Error :=
  match Error.foldLoop (error.target e)._contexts.length (error.target e) with
  | none => none
  | some copy =>
    match e.copyTop error copy with
    | none => none
    | some copyTop =>
      match (e.push "").onTop (fun top => top.addBasicErrors copyTop.getErrors) with
      | none => none
      | some e1 => e1.onTop (fun top => top.addBasicWarnings copyTop.getWarnings)

/-- Member `Error::hasErrors` (error.cpp 202-204). -/
def Error.hasErrors (e : Error) : Option Bool :=
  e.getCurrentContext.map ErrorContext.hasErrors

/-- Member `Error::hasWarnings` (error.cpp 206-208). -/
def Error.hasWarnings (e : Error) : Option Bool :=
  e.getCurrentContext.map ErrorContext.hasWarnings

/-- Member `Error::clear` (error.cpp 210-214). -/
def Error.clear (_e : Error) (name : String) : Error :=
  { _contexts := [] ++ [ErrorContext.init name] }

/-- Member `Error::writeTo` (error.cpp 216-224).  The stream is the text written to it
so far; `std::endl` writes a newline. -/
def Error.writeTo (e : Error) (stream : String) : Option String :=
  match e.getCurrentContext with
  | none => none
  | some top =>
    let stream1 := top.getErrors.foldl
      (fun s i => s ++ "Error : [" ++ i.contextName ++ "] : " ++ i.message ++ "\n") stream
    some (top.getWarnings.foldl
      (fun s i => s ++ "Warning : [" ++ i.contextName ++ "] : " ++ i.message ++ "\n") stream1)

/-- Member `Error::writeWarningsTo` (error.cpp 226-231). -/
def Error.writeWarningsTo (e : Error) (stream : String) : Option String :=
  match e.getCurrentContext with
  | none => none
  | some top =>
    some (top.getWarnings.foldl
      (fun s i => s ++ "Warning : [" ++ i.contextName ++ "] : " ++ i.message ++ "\n") stream)

/-- Member `Error::writeErrorsTo` (error.cpp 233-237).  The member is `const` and only
reads through `_top`, so the aggregator is the same before and after the call and
only the stream is returned. -/
def Error.writeErrorsTo (e : Error) (stream : String) : Option String :=
  match e.getCurrentContext with
  | none => none
  | some top =>
    some (top.getErrors.foldl
      (fun s i => s ++ "Error : [" ++ i.contextName ++ "] : " ++ i.message ++ "\n") stream)

/-- The loop of `Error::push(Error const&)` (error.cpp 170-172) once more, as
`Error.foldLoop`, recording after each call `copy.fold()` the depth
`copy._contexts.size()` it leaves. -/
def Error.foldLoopTrace : Nat → Error → Option (List Nat × Error)
  | fuel, copy =>
    if copy._contexts.length != 1 then
      match fuel with
      | 0 => none
      | fuel + 1 =>
        match copy.fold with
        | none => none
        | some copy1 =>
          match Error.foldLoopTrace fuel copy1 with
          | none => none
          | some (depths, final) => some (copy1._contexts.length :: depths, final)
    else
      some ([], copy)

/-! ## `Window::Event` (`include/window.hpp`, `src/window.cpp`)

`GLFW_MOUSE_BUTTON_LAST` and `GLFW_PRESS` come from the GLFW header, which is not part
of the repository: they are parameters here.  An array is a `List` of its declared
length, and a write outside it is undefined, rendered as `none`. -/

/-- The member `bool _buttonsStates[GLFW_MOUSE_BUTTON_LAST]` of `Window::Event`
(window.hpp 90); the other members play no part in the write to it. -/
structure Window.Event where
  _buttonsStates : List Bool
deriving DecidableEq

/-- The constructor `Window::Event::Event` (window.cpp 231-238) on `_buttonsStates`:
the array has `GLFW_MOUSE_BUTTON_LAST` elements and the loop
`for (i = 0; i < GLFW_MOUSE_BUTTON_LAST; ++i)` sets each of them to `false`. -/
def Window.Event.init (GLFW_MOUSE_BUTTON_LAST : Nat) : Window.Event :=
  { _buttonsStates := List.replicate GLFW_MOUSE_BUTTON_LAST false }

/-- The assignment `event._buttonsStates[button] = action == GLFW_PRESS;` of
`_windowMouseButtonCallback` (window.cpp 544), reached when the window is found in
`_reverseLookup`; `button` and `action` are the `int` arguments GLFW passes. -/
def _windowMouseButtonCallback (GLFW_PRESS : Int) (event : Window.Event)
    (button action : Int) : Option Window.Event :=
  if 0 ≤ button ∧ button.toNat < event._buttonsStates.length then
    some { _buttonsStates := event._buttonsStates.set button.toNat (action == GLFW_PRESS) }
  else
    none

/-! ## Scripts of operations -/

/-- One call on an aggregator.  `pushError otherName otherOps` is `push(other)` for the
aggregator `other`, an object of its own, built as `Error(otherName)` followed by the calls `otherOps`. -/
inductive Op where
  | push (contextName : String)
  | pushError (otherName : String) (otherOps : List Op)
  | pop
  | fold
  | foldToError
  | foldToWarning
  | clear (name : String)
  | addError (errorMessage : String)
  | addErrors (errorMessages : List String)
  | addWarning (warningMessage : String)
  | addWarnings (warningMessages : List String)

mutual
/-- The aggregator after one call (the context returned by `pop` is discarded). -/
def Op.apply : Op → Error → Option Error
  | .push n, e => some (e.push n)
  | .pushError n ops, e =>
    match Op.run ops (Error.init n) with
    | none => none
    | some other => e.pushError (ErrorRef.other other)
  | .pop, e => e.pop.map Prod.snd
  | .fold, e => e.fold
  | .foldToError, e => e.foldToError
  | .foldToWarning, e => e.foldToWarning
  | .clear n, e => some (e.clear n)
  | .addError m, e => e.addError m
  | .addErrors ms, e => e.addErrors ms
  | .addWarning m, e => e.addWarning m
  | .addWarnings ms, e => e.addWarnings ms
/-- The aggregator after a sequence of calls, first call first. -/
def Op.run : List Op → Error → Option Error
  | [], e => some e
  | op :: rest, e =>
    match Op.apply op e with
    | none => none
    | some e1 => Op.run rest e1
end

/-- A plain-string insertion on the aggregator: `addError(m)` or `addWarning(m)`. -/
inductive Insertion where
  | addError (errorMessage : String)
  | addWarning (warningMessage : String)

/-- The call an insertion stands for. -/
def Insertion.toOp : Insertion → Op
  | .addError m => Op.addError m
  | .addWarning m => Op.addWarning m

/-- The texts handed to `addError` in a sequence of insertions, in call order. -/
def Insertion.errorTexts : List Insertion → List String
  | [] => []
  | .addError m :: rest => m :: Insertion.errorTexts rest
  | .addWarning _ :: rest => Insertion.errorTexts rest

/-- The texts handed to `addWarning` in a sequence of insertions, in call order. -/
def Insertion.warningTexts : List Insertion → List String
  | [] => []
  | .addError _ :: rest => Insertion.warningTexts rest
  | .addWarning m :: rest => m :: Insertion.warningTexts rest

/-- The member of `ErrorContext` an insertion calls: `addError(m)` or `addWarning(m)`. -/
def Insertion.onContext : Insertion → ErrorContext → ErrorContext
  | .addError m, c => c.addError m
  | .addWarning m, c => c.addWarning m

/-- The calls that open the nested levels `(n2, ins2), ..., (nk, insk)` one after the
other: `push(ni)` followed by the plain-string insertions `insi` of that level. -/
def levelCalls (levels : List (String × List Insertion)) : List Op :=
  levels.flatMap (fun l => Op.push l.1 :: l.2.map Insertion.toOp)

/-- The context a level `(n, ins)` leaves on the stack once it has been opened with
`push(n)` and has received the insertions `ins`. -/
def levelContext (l : String × List Insertion) : ErrorContext :=
  { _contextName := l.1,
    _errors := (Insertion.errorTexts l.2).map (fun m => ⟨l.1, m⟩),
    _warnings := (Insertion.warningTexts l.2).map (fun m => ⟨l.1, m⟩) }

/-! ## The specification's words -/

/-- The composed name of section 4.1 of the specification, case by case as written
there: the incoming name if this context's name is empty, else this context's name
if the incoming name is empty, else the two joined by `" > "`. -/
def composedName (thisName incoming : String) : String :=
  if thisName = "" then incoming
  else if incoming = "" then thisName
  else thisName ++ " > " ++ incoming

/-- A message as the cross-context ingestion of section 4.1 re-records it in a
context named `thisName`: same text, composed name. -/
def renamed (thisName : String) (m : basicError) : basicError :=
  { contextName := composedName thisName m.contextName, message := m.message }

/-- The context two adjacent contexts merge into, in the words of section 4.2 of the
specification: the parent `p` keeps its name and its own messages, and the messages of
the deeper context `c` come after them, renamed. -/
def merged (p c : ErrorContext) : ErrorContext :=
  { _contextName := p._contextName,
    _errors := p._errors ++ c._errors.map (renamed p._contextName),
    _warnings := p._warnings ++ c._warnings.map (renamed p._contextName) }

/-- The context a stack `c :: above` (bottom context first) folds down to: each
context merged into the one beneath it, from the top down. -/
def collapseFrom (c : ErrorContext) : List ErrorContext → ErrorContext
  | [] => c
  | d :: above => merged c (collapseFrom d above)

/-- The `" > "`-join of the non-empty names among `names`. -/
def chevronJoin (names : List String) : String :=
  " > ".intercalate (names.filter (fun n => n ≠ ""))

/-- The error messages expected after folding the levels back: the `addError` texts of
each level in turn, outermost level first, each tagged with the join of the names from
the first level down to its own (`outer` holds the names of the levels already
passed). -/
def taggedErrors (outer : List String) : List (String × List Insertion) → List basicError
  | [] => []
  | (n, ins) :: rest =>
    (Insertion.errorTexts ins).map (fun m => ⟨chevronJoin (outer ++ [n]), m⟩) ++
      taggedErrors (outer ++ [n]) rest

/-- The warning messages expected after folding the levels back, as `taggedErrors`. -/
def taggedWarnings (outer : List String) : List (String × List Insertion) → List basicError
  | [] => []
  | (n, ins) :: rest =>
    (Insertion.warningTexts ins).map (fun m => ⟨chevronJoin (outer ++ [n]), m⟩) ++
      taggedWarnings (outer ++ [n]) rest

/-- The number of messages held across the whole stack, errors plus warnings of every
context. -/
def Error.totalMessages (e : Error) : Nat :=
  (e._contexts.map (fun c => c._errors.length + c._warnings.length)).sum

/-- The texts of all messages held across the whole stack. -/
def Error.allTexts (e : Error) : List String :=
  e._contexts.flatMap (fun c => (c._errors ++ c._warnings).map (fun m => m.message))

/-- One line of output for an error, as section 6 of the specification gives it. -/
def errorLine (m : basicError) : String :=
  "Error : [" ++ m.contextName ++ "] : " ++ m.message ++ "\n"

/-- One line of output for a warning, as section 6 of the specification gives it. -/
def warningLine (m : basicError) : String :=
  "Warning : [" ++ m.contextName ++ "] : " ++ m.message ++ "\n"

/-! ## Lemmas on the embedding -/

theorem length_eq_zero_iff (s : String) : s.length = 0 ↔ s = "" := by
  rcases s with ⟨l⟩
  cases l <;> simp [String.length, String.ext_iff]

theorem formatName_eq (a b : String) : formatName a b = composedName a b := by
  unfold formatName composedName
  by_cases ha : a = "" <;> by_cases hb : b = "" <;> simp [ha, hb, length_eq_zero_iff]

theorem addBasicErrors_eq (c : ErrorContext) (es : List basicError) :
    c.addBasicErrors es =
      { _contextName := c._contextName,
        _errors := c._errors ++ es.map (renamed c._contextName),
        _warnings := c._warnings } := by
  unfold ErrorContext.addBasicErrors
  induction es generalizing c with
  | nil => simp
  | cons i es ih =>
    rw [List.foldl_cons, ih]
    simp [formatName_eq, renamed]

theorem addBasicWarnings_eq (c : ErrorContext) (ws : List basicError) :
    c.addBasicWarnings ws =
      { _contextName := c._contextName,
        _errors := c._errors,
        _warnings := c._warnings ++ ws.map (renamed c._contextName) } := by
  unfold ErrorContext.addBasicWarnings
  induction ws generalizing c with
  | nil => simp
  | cons i ws ih =>
    rw [List.foldl_cons, ih]
    simp [formatName_eq, renamed]

theorem addErrors_eq (c : ErrorContext) (ms : List String) :
    c.addErrors ms =
      { _contextName := c._contextName,
        _errors := c._errors ++ ms.map (fun m => ⟨c._contextName, m⟩),
        _warnings := c._warnings } := by
  unfold ErrorContext.addErrors
  induction ms generalizing c with
  | nil => simp
  | cons i ms ih =>
    rw [List.foldl_cons, ih]
    simp

theorem addWarnings_eq (c : ErrorContext) (ms : List String) :
    c.addWarnings ms =
      { _contextName := c._contextName,
        _errors := c._errors,
        _warnings := c._warnings ++ ms.map (fun m => ⟨c._contextName, m⟩) } := by
  unfold ErrorContext.addWarnings
  induction ms generalizing c with
  | nil => simp
  | cons i ms ih =>
    rw [List.foldl_cons, ih]
    simp

theorem onTop_concat (below : List ErrorContext) (t : ErrorContext)
    (f : ErrorContext → ErrorContext) :
    Error.onTop ⟨below ++ [t]⟩ f = some ⟨below ++ [f t]⟩ := by
  simp [Error.onTop]

theorem onTop_single (t : ErrorContext) (f : ErrorContext → ErrorContext) :
    Error.onTop ⟨[t]⟩ f = some ⟨[f t]⟩ := by
  simp [Error.onTop]

theorem pop_single (c : ErrorContext) :
    Error.pop ⟨[c]⟩ = some (c, ⟨[ErrorContext.init ""]⟩) := by
  simp [Error.pop]

theorem pop_concat (below : List ErrorContext) (p c : ErrorContext) :
    Error.pop ⟨below ++ [p, c]⟩ = some (c, ⟨below ++ [p]⟩) := by
  have h : below ++ [p, c] = (below ++ [p]) ++ [c] := by simp
  simp [Error.pop, h, -List.append_assoc]

/-- A stack is empty or has a top above some others. -/
theorem nil_or_top (l : List ErrorContext) : l = [] ∨ ∃ below t, l = below ++ [t] := by
  rcases List.eq_nil_or_concat l with h | ⟨below, t, h⟩
  · exact Or.inl h
  · exact Or.inr ⟨below, t, by simp [h]⟩

/-- A stack is empty, a single context, or a parent and a top above some others. -/
theorem stack_cases (l : List ErrorContext) :
    l = [] ∨ (∃ c, l = [c]) ∨ ∃ below p c, l = below ++ [p, c] := by
  rcases nil_or_top l with h | ⟨l1, c, h⟩
  · exact Or.inl h
  · rcases nil_or_top l1 with h1 | ⟨l2, p, h1⟩
    · exact Or.inr (Or.inl ⟨c, by simp [h, h1]⟩)
    · exact Or.inr (Or.inr ⟨l2, p, c, by simp [h, h1]⟩)

theorem ne_nil_cases (e : Error) (h : e._contexts ≠ []) :
    (∃ c, e = ⟨[c]⟩) ∨ ∃ below p c, e = ⟨below ++ [p, c]⟩ := by
  rcases e with ⟨l⟩
  rcases stack_cases l with h0 | ⟨c, h1⟩ | ⟨below, p, c, h2⟩
  · exact absurd h0 h
  · exact Or.inl ⟨c, by rw [h1]⟩
  · exact Or.inr ⟨below, p, c, by rw [h2]⟩

theorem composedName_empty_left (b : String) : composedName "" b = b := by
  simp [composedName]

theorem renamed_empty : renamed "" = id := by
  funext m
  simp [renamed, composedName_empty_left]

theorem fold_concat (below : List ErrorContext) (p c : ErrorContext) :
    Error.fold ⟨below ++ [p, c]⟩ = some ⟨below ++ [merged p c]⟩ := by
  simp [Error.fold, pop_concat, onTop_concat, ErrorContext.getErrors, ErrorContext.getWarnings,
    addBasicErrors_eq, addBasicWarnings_eq, merged]

theorem fold_single (c : ErrorContext) :
    Error.fold ⟨[c]⟩ = some ⟨[{ _contextName := "", _errors := c._errors, _warnings := c._warnings }]⟩ := by
  simp [Error.fold, pop_single, onTop_single, ErrorContext.getErrors, ErrorContext.getWarnings,
    addBasicErrors_eq, addBasicWarnings_eq, ErrorContext.init, renamed_empty]

theorem foldToError_concat (below : List ErrorContext) (p c : ErrorContext) :
    Error.foldToError ⟨below ++ [p, c]⟩ =
      some ⟨below ++ [{ _contextName := p._contextName,
                        _errors := p._errors ++ c._errors.map (renamed p._contextName) ++
                          c._warnings.map (renamed p._contextName),
                        _warnings := p._warnings }]⟩ := by
  simp [Error.foldToError, pop_concat, onTop_concat, ErrorContext.getErrors,
    ErrorContext.getWarnings, addBasicErrors_eq]

theorem foldToError_single (c : ErrorContext) :
    Error.foldToError ⟨[c]⟩ =
      some ⟨[{ _contextName := "", _errors := c._errors ++ c._warnings, _warnings := [] }]⟩ := by
  simp [Error.foldToError, pop_single, onTop_single, ErrorContext.getErrors,
    ErrorContext.getWarnings, addBasicErrors_eq, ErrorContext.init, renamed_empty]

theorem foldToWarning_concat (below : List ErrorContext) (p c : ErrorContext) :
    Error.foldToWarning ⟨below ++ [p, c]⟩ =
      some ⟨below ++ [{ _contextName := p._contextName,
                        _errors := p._errors,
                        _warnings := p._warnings ++ c._errors.map (renamed p._contextName) ++
                          c._warnings.map (renamed p._contextName) }]⟩ := by
  simp [Error.foldToWarning, pop_concat, onTop_concat, ErrorContext.getErrors,
    ErrorContext.getWarnings, addBasicWarnings_eq]

theorem foldToWarning_single (c : ErrorContext) :
    Error.foldToWarning ⟨[c]⟩ =
      some ⟨[{ _contextName := "", _errors := [], _warnings := c._errors ++ c._warnings }]⟩ := by
  simp [Error.foldToWarning, pop_single, onTop_single, ErrorContext.getErrors,
    ErrorContext.getWarnings, addBasicWarnings_eq, ErrorContext.init, renamed_empty]

/-- With a unit of fuel per context beneath the top, the loop of `push(Error const&)`
ends on a single context: the contexts merged pairwise from the top down. -/
theorem foldLoop_concat (fuel : Nat) (below : List ErrorContext) (t : ErrorContext)
    (h : below.length ≤ fuel) :
    Error.foldLoop fuel ⟨below ++ [t]⟩ = some ⟨[below.foldr merged t]⟩ := by
  induction fuel generalizing below t with
  | zero =>
    have hb : below = [] := List.length_eq_zero.mp (Nat.le_zero.mp h)
    subst hb
    simp [Error.foldLoop]
  | succ fuel ih =>
    rcases nil_or_top below with hb | ⟨below1, p, hb⟩
    · subst hb
      simp [Error.foldLoop]
    · subst hb
      have hlen : below1.length ≤ fuel := by
        simp at h
        omega
      have hstack : below1 ++ [p] ++ [t] = below1 ++ [p, t] := by simp
      rw [hstack]
      unfold Error.foldLoop
      simp [fold_concat, ih below1 (merged p t) hlen]

/-- The call `push(Error const&)` once the loop has run: the receiver gets one context
with an empty name holding what is read through `copy._top`, when that context is
live. -/
theorem pushError_eq (e : Error) (error : ErrorRef) (below : List ErrorContext)
    (t : ErrorContext) (htarget : error.target e = ⟨below ++ [t]⟩) :
    e.pushError error =
      (e.copyTop error ⟨[below.foldr merged t]⟩).map
        (fun ct => ⟨e._contexts ++ [{ _contextName := "",
                                      _errors := ct._errors,
                                      _warnings := ct._warnings }]⟩) := by
  have hloop := foldLoop_concat (below.length + 1) below t (Nat.le_succ _)
  simp only [Error.pushError, htarget, List.length_append, List.length_singleton, hloop]
  cases e.copyTop error ⟨[below.foldr merged t]⟩ with
  | none => rfl
  | some ct =>
    simp [Error.push, onTop_concat, ErrorContext.getErrors, ErrorContext.getWarnings,
      addBasicErrors_eq, addBasicWarnings_eq, ErrorContext.init, renamed_empty]

/-- For an argument that is another object `copy._top` points at a live context at
every depth, equal to the back of the collapsed copy. -/
theorem copyTop_other (e : Error) (below : List ErrorContext) (t : ErrorContext) :
    e.copyTop (ErrorRef.other ⟨below ++ [t]⟩) ⟨[below.foldr merged t]⟩ =
      some (below.foldr merged t) := by
  cases below with
  | nil => simp [Error.copyTop, ErrorRef.target, Error.getCurrentContext]
  | cons b bs => simp [Error.copyTop, ErrorRef.target, Error.getCurrentContext]

/-- For the receiver itself with two contexts or more the loop has re-pointed
`copy._top` at the copy's own back. -/
theorem copyTop_receiver_deep (below : List ErrorContext) (p t : ErrorContext)
    (reallocates : Bool) :
    Error.copyTop ⟨below ++ [p, t]⟩ (ErrorRef.receiver reallocates)
        ⟨[(below ++ [p]).foldr merged t]⟩ =
      some ((below ++ [p]).foldr merged t) := by
  simp [Error.copyTop, ErrorRef.target, Error.getCurrentContext]

theorem pushError_concat (e : Error) (below : List ErrorContext) (t : ErrorContext) :
    e.pushError (ErrorRef.other ⟨below ++ [t]⟩) =
      some ⟨e._contexts ++ [{ _contextName := "",
                              _errors := (below.foldr merged t)._errors,
                              _warnings := (below.foldr merged t)._warnings }]⟩ := by
  rw [pushError_eq e (ErrorRef.other ⟨below ++ [t]⟩) below t rfl, copyTop_other]
  rfl

theorem pushError_receiver_deep (below : List ErrorContext) (p t : ErrorContext)
    (reallocates : Bool) :
    Error.pushError ⟨below ++ [p, t]⟩ (ErrorRef.receiver reallocates) =
      some ⟨below ++ [p, t] ++
        [{ _contextName := "",
           _errors := ((below ++ [p]).foldr merged t)._errors,
           _warnings := ((below ++ [p]).foldr merged t)._warnings }]⟩ := by
  have htarget : (ErrorRef.receiver reallocates).target ⟨below ++ [p, t]⟩ =
      ⟨(below ++ [p]) ++ [t]⟩ := by
    simp [ErrorRef.target]
  rw [pushError_eq _ (ErrorRef.receiver reallocates) (below ++ [p]) t htarget,
    copyTop_receiver_deep]
  rfl

/-- For the receiver itself with a single context in a full vector, `copy._top` points
at the context `push()` has freed: the call is undefined. -/
theorem pushError_receiver_single_full (c : ErrorContext) :
    Error.pushError ⟨[c]⟩ (ErrorRef.receiver true) = none := by
  have htarget : (ErrorRef.receiver true).target ⟨[c]⟩ = ⟨[] ++ [c]⟩ := rfl
  rw [pushError_eq _ (ErrorRef.receiver true) [] c htarget]
  simp [Error.copyTop, ErrorRef.target]

theorem onTop_keeps (e : Error) (f : ErrorContext → ErrorContext) (h : e._contexts ≠ []) :
    ∃ e1, e.onTop f = some e1 ∧ e1._contexts ≠ [] := by
  rcases e with ⟨l⟩
  rcases nil_or_top l with h0 | ⟨below, t, h1⟩
  · exact absurd h0 h
  · subst h1
    exact ⟨⟨below ++ [f t]⟩, onTop_concat below t f, by simp⟩

theorem pop_keeps (e : Error) (h : e._contexts ≠ []) :
    ∃ e1, e.pop.map Prod.snd = some e1 ∧ e1._contexts ≠ [] := by
  rcases ne_nil_cases e h with ⟨c, rfl⟩ | ⟨below, p, c, rfl⟩
  · exact ⟨_, by rw [pop_single]; rfl, by simp⟩
  · exact ⟨_, by rw [pop_concat]; rfl, by simp⟩

theorem fold_keeps (e : Error) (h : e._contexts ≠ []) :
    ∃ e1, e.fold = some e1 ∧ e1._contexts ≠ [] := by
  rcases ne_nil_cases e h with ⟨c, rfl⟩ | ⟨below, p, c, rfl⟩
  · exact ⟨_, fold_single c, by simp⟩
  · exact ⟨_, fold_concat below p c, by simp⟩

theorem foldToError_keeps (e : Error) (h : e._contexts ≠ []) :
    ∃ e1, e.foldToError = some e1 ∧ e1._contexts ≠ [] := by
  rcases ne_nil_cases e h with ⟨c, rfl⟩ | ⟨below, p, c, rfl⟩
  · exact ⟨_, foldToError_single c, by simp⟩
  · exact ⟨_, foldToError_concat below p c, by simp⟩

theorem foldToWarning_keeps (e : Error) (h : e._contexts ≠ []) :
    ∃ e1, e.foldToWarning = some e1 ∧ e1._contexts ≠ [] := by
  rcases ne_nil_cases e h with ⟨c, rfl⟩ | ⟨below, p, c, rfl⟩
  · exact ⟨_, foldToWarning_single c, by simp⟩
  · exact ⟨_, foldToWarning_concat below p c, by simp⟩

theorem pushError_keeps (e other : Error) (h : other._contexts ≠ []) :
    ∃ e1, e.pushError (ErrorRef.other other) = some e1 ∧ e1._contexts ≠ [] := by
  rcases other with ⟨l⟩
  rcases nil_or_top l with h0 | ⟨below, t, h1⟩
  · exact absurd h0 h
  · subst h1
    exact ⟨_, pushError_concat e below t, by simp⟩

mutual
/-- One call on a stack holding a context succeeds and leaves a stack holding a context. -/
theorem Op.apply_keeps : ∀ (op : Op) (e : Error), e._contexts ≠ [] →
    ∃ e1, op.apply e = some e1 ∧ e1._contexts ≠ []
  | .push n, e, _ => ⟨_, rfl, by simp [Error.push]⟩
  | .pushError n ops, e, _ => by
    obtain ⟨other, hrun, hother⟩ := Op.run_keeps ops (Error.init n) (by simp [Error.init])
    obtain ⟨e1, he1, hne⟩ := pushError_keeps e other hother
    exact ⟨e1, by simp [Op.apply, hrun, he1], hne⟩
  | .pop, e, h => pop_keeps e h
  | .fold, e, h => fold_keeps e h
  | .foldToError, e, h => foldToError_keeps e h
  | .foldToWarning, e, h => foldToWarning_keeps e h
  | .clear n, e, _ => ⟨_, rfl, by simp [Error.clear]⟩
  | .addError m, e, h => onTop_keeps e _ h
  | .addErrors ms, e, h => onTop_keeps e _ h
  | .addWarning m, e, h => onTop_keeps e _ h
  | .addWarnings ms, e, h => onTop_keeps e _ h
/-- A sequence of calls on a stack holding a context succeeds and leaves a stack
holding a context. -/
theorem Op.run_keeps : ∀ (ops : List Op) (e : Error), e._contexts ≠ [] →
    ∃ e1, Op.run ops e = some e1 ∧ e1._contexts ≠ []
  | [], e, h => ⟨e, rfl, h⟩
  | op :: rest, e, h => by
    obtain ⟨e1, he1, hne1⟩ := Op.apply_keeps op e h
    obtain ⟨e2, he2, hne2⟩ := Op.run_keeps rest e1 hne1
    exact ⟨e2, by simp [Op.run, he1, he2], hne2⟩
end

theorem run_append (a b : List Op) (e : Error) :
    Op.run (a ++ b) e = (Op.run a e).bind (Op.run b) := by
  induction a generalizing e with
  | nil => simp [Op.run]
  | cons op rest ih =>
    simp only [List.cons_append, Op.run]
    cases Op.apply op e with
    | none => simp
    | some e1 => simpa using ih e1

/-- Plain-string insertions land in the top context, tagged with its name, in call
order; nothing else moves. -/
theorem run_insertions (ins : List Insertion) (below : List ErrorContext) (t : ErrorContext) :
    Op.run (ins.map Insertion.toOp) ⟨below ++ [t]⟩ =
      some ⟨below ++ [{ _contextName := t._contextName,
                        _errors := t._errors ++
                          (Insertion.errorTexts ins).map (fun m => ⟨t._contextName, m⟩),
                        _warnings := t._warnings ++
                          (Insertion.warningTexts ins).map (fun m => ⟨t._contextName, m⟩) }]⟩ := by
  induction ins generalizing t with
  | nil => simp [Op.run, Insertion.errorTexts, Insertion.warningTexts]
  | cons i rest ih =>
    cases i with
    | addError m =>
      simp [Op.run, Op.apply, Insertion.toOp, Error.addError, onTop_concat, ih,
        ErrorContext.addError, Insertion.errorTexts, Insertion.warningTexts]
    | addWarning m =>
      simp [Op.run, Op.apply, Insertion.toOp, Error.addWarning, onTop_concat, ih,
        ErrorContext.addWarning, Insertion.errorTexts, Insertion.warningTexts]

theorem composedName_empty_right (a : String) : composedName a "" = a := by
  by_cases h : a = "" <;> simp [composedName, h]

theorem composedName_both (a b : String) (ha : a ≠ "") (hb : b ≠ "") :
    composedName a b = a ++ " > " ++ b := by
  simp [composedName, ha, hb]

/-- Merging keeps every text, the parent's first. -/
theorem merged_error_texts (p c : ErrorContext) :
    (merged p c)._errors.map (fun m => m.message) =
      p._errors.map (fun m => m.message) ++ c._errors.map (fun m => m.message) := by
  simp [merged, renamed, Function.comp_def]

theorem merged_warning_texts (p c : ErrorContext) :
    (merged p c)._warnings.map (fun m => m.message) =
      p._warnings.map (fun m => m.message) ++ c._warnings.map (fun m => m.message) := by
  simp [merged, renamed, Function.comp_def]

theorem collapsed_error_texts (below : List ErrorContext) (t : ErrorContext) :
    (below.foldr merged t)._errors.map (fun m => m.message) =
      (below ++ [t]).flatMap (fun c => c._errors.map (fun m => m.message)) := by
  induction below with
  | nil => simp
  | cons p rest ih => simp [merged_error_texts, ih]

theorem collapsed_warning_texts (below : List ErrorContext) (t : ErrorContext) :
    (below.foldr merged t)._warnings.map (fun m => m.message) =
      (below ++ [t]).flatMap (fun c => c._warnings.map (fun m => m.message)) := by
  induction below with
  | nil => simp
  | cons p rest ih => simp [merged_warning_texts, ih]

theorem intercalate_go_append (a b s : String) (l : List String) :
    String.intercalate.go (a ++ b) s l = a ++ String.intercalate.go b s l := by
  induction l generalizing b with
  | nil => simp [String.intercalate.go]
  | cons x l ih =>
    simp only [String.intercalate.go]
    rw [String.append_assoc, String.append_assoc, ih, String.append_assoc]

theorem intercalate_cons_cons (s x y : String) (l : List String) :
    s.intercalate (x :: y :: l) = x ++ s ++ s.intercalate (y :: l) := by
  simp only [String.intercalate, String.intercalate.go]
  rw [intercalate_go_append]

theorem append_eq_empty_left (a b : String) (h : a ++ b = "") : a = "" := by
  have hlen : (a ++ b).length = 0 := by rw [h]; rfl
  rw [String.length_append] at hlen
  exact (length_eq_zero_iff a).mp (by omega)

theorem intercalate_cons_ne_empty (s x : String) (l : List String) (hx : x ≠ "") :
    s.intercalate (x :: l) ≠ "" := by
  intro h
  have hgo : s.intercalate (x :: l) = x ++ String.intercalate.go "" s l := by
    simp only [String.intercalate]
    conv_lhs => rw [show x = x ++ "" by simp]
    rw [intercalate_go_append]
  rw [hgo] at h
  exact hx (append_eq_empty_left _ _ h)

theorem chevronJoin_cons (a : String) (names : List String) :
    chevronJoin (a :: names) = composedName a (chevronJoin names) := by
  by_cases ha : a = ""
  · subst ha
    simp [chevronJoin, composedName]
  · unfold chevronJoin
    rw [List.filter_cons_of_pos (by simpa using ha)]
    cases hf : names.filter (fun n => n ≠ "") with
    | nil => simp [String.intercalate, String.intercalate.go, composedName, ha]
    | cons y l =>
      have hy : y ≠ "" := by
        have hmem : y ∈ names.filter (fun n => n ≠ "") := by rw [hf]; simp
        simpa using (List.mem_filter.mp hmem).2
      rw [intercalate_cons_cons]
      simp [composedName, ha, intercalate_cons_ne_empty " > " y l hy]

theorem chevronJoin_nil : chevronJoin [] = "" := rfl

theorem chevronJoin_singleton (a : String) : chevronJoin [a] = a := by
  rw [chevronJoin_cons, chevronJoin_nil, composedName_empty_right]

theorem composedName_eq_empty_iff (a b : String) :
    composedName a b = "" ↔ a = "" ∧ b = "" := by
  by_cases ha : a = "" <;> by_cases hb : b = ""
  · simp [composedName, ha, hb]
  · simp [composedName, ha, hb]
  · simp [composedName, ha, hb]
  · simp only [composedName, ha, hb, if_false, false_and, iff_false]
    intro h
    rw [String.append_assoc] at h
    exact ha (append_eq_empty_left _ _ h)

theorem chevronJoin_eq_empty_iff (names : List String) :
    chevronJoin names = "" ↔ ∀ n ∈ names, n = "" := by
  induction names with
  | nil => simp [chevronJoin_nil]
  | cons a names ih => simp [chevronJoin_cons, composedName_eq_empty_iff, ih]

/-- Opening levels one after the other puts one context per level on the stack. -/
theorem run_levelCalls (levels : List (String × List Insertion)) (below : List ErrorContext)
    (t : ErrorContext) :
    Op.run (levelCalls levels) ⟨below ++ [t]⟩ =
      some ⟨below ++ [t] ++ levels.map levelContext⟩ := by
  induction levels generalizing below t with
  | nil => simp [levelCalls, Op.run]
  | cons l rest ih =>
    have hcalls : levelCalls (l :: rest) =
        Op.push l.1 :: (l.2.map Insertion.toOp ++ levelCalls rest) := by
      simp [levelCalls]
    have hins := run_insertions l.2 (below ++ [t]) (ErrorContext.init l.1)
    rw [hcalls]
    simp only [Op.run, Op.apply, Error.push]
    rw [run_append, hins]
    simp only [Option.some_bind]
    rw [ih]
    simp [levelContext, ErrorContext.init]

theorem foldr_merged_eq (below : List ErrorContext) (t c : ErrorContext)
    (above : List ErrorContext) (h : below ++ [t] = c :: above) :
    below.foldr merged t = collapseFrom c above := by
  induction below generalizing c above with
  | nil =>
    simp at h
    obtain ⟨h1, h2⟩ := h
    subst h1 h2
    rfl
  | cons b bs ih =>
    simp at h
    obtain ⟨h1, h2⟩ := h
    subst h1
    cases above with
    | nil => simp at h2
    | cons d ds =>
      simp only [List.foldr_cons, collapseFrom]
      rw [ih d ds h2]

theorem run_folds_concat (below : List ErrorContext) (t : ErrorContext) :
    Op.run (List.replicate below.length Op.fold) ⟨below ++ [t]⟩ =
      some ⟨[below.foldr merged t]⟩ := by
  induction below using List.reverseRecOn generalizing t with
  | nil => simp [Op.run]
  | append_singleton front p ih =>
    have hstack : front ++ [p] ++ [t] = front ++ [p, t] := by simp
    have hcalls : List.replicate (front ++ [p]).length Op.fold =
        Op.fold :: List.replicate front.length Op.fold := by
      simp [List.replicate_succ]
    rw [hstack, hcalls]
    simp only [Op.run, Op.apply, fold_concat]
    rw [ih (merged p t)]
    simp

/-- As many `fold` calls as there are contexts above the bottom one leave the single
context the stack folds down to. -/
theorem run_folds (c : ErrorContext) (above : List ErrorContext) :
    Op.run (List.replicate above.length Op.fold) ⟨c :: above⟩ =
      some ⟨[collapseFrom c above]⟩ := by
  rcases nil_or_top (c :: above) with h0 | ⟨below, t, h1⟩
  · simp at h0
  · have hlen : above.length = below.length := by
      have := congrArg List.length h1
      simp at this
      exact this
    rw [h1, hlen, run_folds_concat, foldr_merged_eq below t c above h1.symm]

theorem collapseFrom_name (c : ErrorContext) (above : List ErrorContext) :
    (collapseFrom c above)._contextName = c._contextName := by
  cases above <;> simp [collapseFrom, merged]

theorem taggedErrors_renamed (n : String) (outer : List String)
    (levels : List (String × List Insertion)) :
    (taggedErrors outer levels).map (renamed n) = taggedErrors (n :: outer) levels := by
  induction levels generalizing outer with
  | nil => simp [taggedErrors]
  | cons l rest ih =>
    obtain ⟨m, ins⟩ := l
    simp [taggedErrors, ih, renamed, chevronJoin_cons, Function.comp_def]

theorem taggedWarnings_renamed (n : String) (outer : List String)
    (levels : List (String × List Insertion)) :
    (taggedWarnings outer levels).map (renamed n) = taggedWarnings (n :: outer) levels := by
  induction levels generalizing outer with
  | nil => simp [taggedWarnings]
  | cons l rest ih =>
    obtain ⟨m, ins⟩ := l
    simp [taggedWarnings, ih, renamed, chevronJoin_cons, Function.comp_def]

theorem collapseFrom_levels (l : String × List Insertion)
    (rest : List (String × List Insertion)) :
    collapseFrom (levelContext l) (rest.map levelContext) =
      { _contextName := l.1,
        _errors := taggedErrors [] (l :: rest),
        _warnings := taggedWarnings [] (l :: rest) } := by
  induction rest generalizing l with
  | nil =>
    obtain ⟨n, ins⟩ := l
    simp [collapseFrom, levelContext, taggedErrors, taggedWarnings, chevronJoin_singleton]
  | cons l2 rest ih =>
    obtain ⟨n, ins⟩ := l
    simp only [List.map_cons, collapseFrom]
    rw [ih l2]
    simp [merged, levelContext, taggedErrors_renamed, taggedWarnings_renamed, taggedErrors,
      taggedWarnings, chevronJoin_singleton, renamed, chevronJoin_cons, chevronJoin_nil,
      composedName_empty_right]

theorem hasErrors_concat (below : List ErrorContext) (t : ErrorContext) :
    Error.hasErrors ⟨below ++ [t]⟩ = some (!t._errors.isEmpty) := by
  simp [Error.hasErrors, Error.getCurrentContext, ErrorContext.hasErrors]

theorem hasWarnings_concat (below : List ErrorContext) (t : ErrorContext) :
    Error.hasWarnings ⟨below ++ [t]⟩ = some (!t._warnings.isEmpty) := by
  simp [Error.hasWarnings, Error.getCurrentContext, ErrorContext.hasWarnings]

theorem isEmpty_not_iff (l : List basicError) : (!l.isEmpty) = true ↔ l ≠ [] := by
  cases l <;> simp

/-- Plain-string insertions on a context land in its two lists, tagged with its name,
in call order. -/
theorem foldl_onContext (ins : List Insertion) (c : ErrorContext) :
    ins.foldl (fun acc i => i.onContext acc) c =
      { _contextName := c._contextName,
        _errors := c._errors ++ (Insertion.errorTexts ins).map (fun m => ⟨c._contextName, m⟩),
        _warnings := c._warnings ++
          (Insertion.warningTexts ins).map (fun m => ⟨c._contextName, m⟩) } := by
  induction ins generalizing c with
  | nil => simp [Insertion.errorTexts, Insertion.warningTexts]
  | cons i rest ih =>
    rw [List.foldl_cons, ih]
    cases i with
    | addError m =>
      simp [Insertion.onContext, ErrorContext.addError, Insertion.errorTexts,
        Insertion.warningTexts]
    | addWarning m =>
      simp [Insertion.onContext, ErrorContext.addWarning, Insertion.errorTexts,
        Insertion.warningTexts]

theorem totalMessages_concat (below : List ErrorContext) (t : ErrorContext) :
    Error.totalMessages ⟨below ++ [t]⟩ =
      Error.totalMessages ⟨below⟩ + (t._errors.length + t._warnings.length) := by
  simp [Error.totalMessages]

theorem allTexts_concat (below : List ErrorContext) (t : ErrorContext) :
    Error.allTexts ⟨below ++ [t]⟩ =
      Error.allTexts ⟨below⟩ ++ (t._errors ++ t._warnings).map (fun m => m.message) := by
  simp [Error.allTexts]

theorem renamed_message (n : String) (l : List basicError) :
    (l.map (renamed n)).map (fun m => m.message) = l.map (fun m => m.message) := by
  simp [renamed, Function.comp_def]

theorem foldl_append_join (acc : String) (l : List String) :
    l.foldl (fun r s => r ++ s) acc = acc ++ String.join l := by
  induction l generalizing acc with
  | nil => simp [String.join]
  | cons x l ih =>
    have hjoin : String.join (x :: l) = x ++ String.join l := by
      simp only [String.join, List.foldl_cons]
      rw [ih ("" ++ x), ih ""]
      simp
    rw [List.foldl_cons, ih, hjoin, String.append_assoc]

/-- A loop that writes one line per message appends the lines, in list order, to
what the stream already holds. -/
theorem foldl_write (line : basicError → String) (l : List basicError) (stream : String) :
    l.foldl (fun s i => s ++ line i) stream = stream ++ String.join (l.map line) := by
  induction l generalizing stream with
  | nil => simp [String.join]
  | cons x l ih =>
    rw [List.foldl_cons, ih, List.map_cons]
    have hjoin : String.join (line x :: l.map line) = line x ++ String.join (l.map line) := by
      simp only [String.join, List.foldl_cons]
      rw [foldl_append_join, foldl_append_join "" ]
      simp
    rw [hjoin, String.append_assoc]

theorem write_errors_loop (l : List basicError) (stream : String) :
    l.foldl (fun s i => s ++ "Error : [" ++ i.contextName ++ "] : " ++ i.message ++ "\n") stream =
      stream ++ String.join (l.map errorLine) := by
  rw [← foldl_write errorLine l stream]
  congr 1
  funext s i
  simp [errorLine, String.append_assoc]

theorem write_warnings_loop (l : List basicError) (stream : String) :
    l.foldl (fun s i => s ++ "Warning : [" ++ i.contextName ++ "] : " ++ i.message ++ "\n")
        stream =
      stream ++ String.join (l.map warningLine) := by
  rw [← foldl_write warningLine l stream]
  congr 1
  funext s i
  simp [warningLine, String.append_assoc]

theorem writeErrorsTo_concat (below : List ErrorContext) (t : ErrorContext) (stream : String) :
    Error.writeErrorsTo ⟨below ++ [t]⟩ stream =
      some (stream ++ String.join (t._errors.map errorLine)) := by
  simp [Error.writeErrorsTo, Error.getCurrentContext, ErrorContext.getErrors,
    write_errors_loop]

theorem foldLoopTrace_concat (fuel : Nat) (below : List ErrorContext) (t : ErrorContext)
    (h : below.length ≤ fuel) :
    Error.foldLoopTrace fuel ⟨below ++ [t]⟩ =
      some ((List.range' 1 below.length).reverse, ⟨[below.foldr merged t]⟩) := by
  induction fuel generalizing below t with
  | zero =>
    have hb : below = [] := List.length_eq_zero.mp (Nat.le_zero.mp h)
    subst hb
    simp [Error.foldLoopTrace]
  | succ fuel ih =>
    rcases nil_or_top below with hb | ⟨below1, p, hb⟩
    · subst hb
      simp [Error.foldLoopTrace]
    · subst hb
      have hlen : below1.length ≤ fuel := by
        simp at h
        omega
      have hstack : below1 ++ [p] ++ [t] = below1 ++ [p, t] := by simp
      rw [hstack]
      unfold Error.foldLoopTrace
      simp [fold_concat, ih below1 (merged p t) hlen, List.range'_concat, Nat.add_comm]

theorem composedName_assoc (a b c : String) :
    composedName (composedName a b) c = composedName a (composedName b c) := by
  by_cases ha : a = ""
  · subst ha
    simp [composedName_empty_left]
  · by_cases hb : b = ""
    · subst hb
      simp [composedName_empty_left, composedName_empty_right]
    · by_cases hc : c = ""
      · subst hc
        simp [composedName_empty_right]
      · have hab : composedName a b ≠ "" := by
          intro h
          exact ha ((composedName_eq_empty_iff a b).mp h).1
        have hbc : composedName b c ≠ "" := by
          intro h
          exact hb ((composedName_eq_empty_iff b c).mp h).1
        rw [composedName_both _ _ hab hc, composedName_both _ _ ha hbc,
          composedName_both _ _ ha hb, composedName_both _ _ hb hc]
        simp [String.append_assoc]

/-! ## The claims -/

/-- C1: starting from `Error(name)`, every finite sequence of `push(name)`,
`push(other)` (for `other` built the same way), `pop`, `fold`, `foldToError`,
`foldToWarning`, `clear`, `addError`, `addErrors`, `addWarning` and `addWarnings`
runs to the end without ever dereferencing `_top` on an empty stack, and the stack
it leaves holds at least one context. -/
theorem stack_never_empty (name : String) (ops : List Op) :
    ∃ e, Op.run ops (Error.init name) = some e ∧ 1 ≤ e._contexts.length := by
  obtain ⟨e, hrun, hne⟩ := Op.run_keeps ops (Error.init name) (by simp [Error.init])
  exact ⟨e, hrun, List.length_pos.mpr hne⟩

/-- C2: on a stack of depth at least two, with parent `P` directly beneath the top
`C`, `fold` leaves a stack one shorter; the contexts below `P` are untouched and the
new top has `P`'s name, `P`'s errors followed by `C`'s errors and `P`'s warnings
followed by `C`'s warnings, each appended message keeping its text and taking the
composition of `P`'s name with its recorded context name. -/
theorem fold_merges_top_into_parent (below : List ErrorContext) (P C : ErrorContext) :
    ∃ e1, Error.fold ⟨below ++ [P, C]⟩ = some e1 ∧
      e1._contexts.length + 1 = (below ++ [P, C]).length ∧
      e1._contexts =
        below ++ [{ _contextName := P._contextName,
                    _errors := P._errors ++ C._errors.map
                      (fun m => { contextName := composedName P._contextName m.contextName,
                                  message := m.message }),
                    _warnings := P._warnings ++ C._warnings.map
                      (fun m => { contextName := composedName P._contextName m.contextName,
                                  message := m.message }) }] := by
  refine ⟨_, fold_concat below P C, by simp, ?_⟩
  simp only [merged]
  rfl

/-- C3: in a context named `n`, the `basicError` overloads of `addErrors` and
`addWarnings` append to their list, in input order, one message per incoming message
with the same text and the composed name (the incoming name if `n` is empty, `n` if
the incoming name is empty, `n + " > " + incoming` otherwise); the name, the earlier
messages and the other list stay as they were. -/
theorem cross_context_ingestion (n : String) (errors warnings incoming : List basicError) :
    ErrorContext.addBasicErrors ⟨n, errors, warnings⟩ incoming =
        { _contextName := n,
          _errors := errors ++ incoming.map
            (fun i => { contextName :=
                          if n = "" then i.contextName
                          else if i.contextName = "" then n
                          else n ++ " > " ++ i.contextName,
                        message := i.message }),
          _warnings := warnings } ∧
      ErrorContext.addBasicWarnings ⟨n, errors, warnings⟩ incoming =
        { _contextName := n,
          _errors := errors,
          _warnings := warnings ++ incoming.map
            (fun i => { contextName :=
                          if n = "" then i.contextName
                          else if i.contextName = "" then n
                          else n ++ " > " ++ i.contextName,
                        message := i.message }) } := by
  constructor
  · rw [addBasicErrors_eq]
    rfl
  · rw [addBasicWarnings_eq]
    rfl

/-- C4: with a top context `P` named `A`, `push(B)`, any plain-string
`addError`/`addWarning` calls and `fold()` leave `P`'s own messages first, tags
untouched, followed by the inserted texts under one tag: `A > B` when `A` and `B` are
both non-empty, `A` when `B` is empty, `B` when `A` is empty.  The example of the
class documentation is the last conjunct. -/
theorem push_insert_fold_tags (below : List ErrorContext) (P : ErrorContext) (B : String)
    (ins : List Insertion) :
    (∃ tag : String,
      (P._contextName ≠ "" → B ≠ "" → tag = P._contextName ++ " > " ++ B) ∧
      (B = "" → tag = P._contextName) ∧
      (P._contextName = "" → tag = B) ∧
      Op.run (Op.push B :: ins.map Insertion.toOp ++ [Op.fold]) ⟨below ++ [P]⟩ =
        some ⟨below ++ [{ _contextName := P._contextName,
                          _errors := P._errors ++
                            (Insertion.errorTexts ins).map (fun m => ⟨tag, m⟩),
                          _warnings := P._warnings ++
                            (Insertion.warningTexts ins).map (fun m => ⟨tag, m⟩) }]⟩) ∧
    Op.run [Op.addError "An error message", Op.addError "another error message",
            Op.push "function", Op.addError "an error inside the pushed context", Op.fold]
        (Error.init "root") =
      some ⟨[{ _contextName := "root",
               _errors := [⟨"root", "An error message"⟩, ⟨"root", "another error message"⟩,
                           ⟨"root > function", "an error inside the pushed context"⟩],
               _warnings := [] }]⟩ := by
  refine ⟨⟨composedName P._contextName B, composedName_both _ _, ?_, ?_, ?_⟩, by decide⟩
  · intro hB
    rw [hB, composedName_empty_right]
  · intro hA
    rw [hA, composedName_empty_left]
  · have hpush : (Error.mk (below ++ [P])).push B = ⟨below ++ [P, ErrorContext.init B]⟩ := by
      simp [Error.push]
    have hins := run_insertions ins (below ++ [P]) (ErrorContext.init B)
    simp only [List.append_assoc, List.singleton_append] at hins
    have hrun : Op.run (Op.push B :: (ins.map Insertion.toOp ++ [Op.fold])) ⟨below ++ [P]⟩ =
        Op.run (ins.map Insertion.toOp ++ [Op.fold]) ⟨below ++ [P, ErrorContext.init B]⟩ := by
      simp only [Op.run, Op.apply, hpush]
    rw [show Op.push B :: List.map Insertion.toOp ins ++ [Op.fold] =
      Op.push B :: (List.map Insertion.toOp ins ++ [Op.fold]) from rfl, hrun, run_append, hins]
    simp [Op.run, Op.apply, fold_concat, merged, renamed, Function.comp_def, ErrorContext.init]

/-- C5: on a stack of depth at least two, with parent `P` beneath the top `C`,
`foldToError` leaves a stack one shorter whose new top has `P`'s name, exactly `P`'s
warnings, and `P`'s errors followed by `C`'s errors and then `C`'s warnings, each
renamed by composition with `P`'s name; the errors list grows by
`|C.errors| + |C.warnings|`. -/
theorem foldToError_promotes_warnings (below : List ErrorContext) (P C : ErrorContext) :
    ∃ e1 top, Error.foldToError ⟨below ++ [P, C]⟩ = some e1 ∧
      e1._contexts = below ++ [top] ∧
      e1._contexts.length + 1 = (below ++ [P, C]).length ∧
      top._contextName = P._contextName ∧
      top._warnings = P._warnings ∧
      top._errors =
        P._errors ++
          C._errors.map (fun m => { contextName := composedName P._contextName m.contextName,
                                    message := m.message }) ++
          C._warnings.map (fun m => { contextName := composedName P._contextName m.contextName,
                                      message := m.message }) ∧
      top._errors.length = P._errors.length + (C._errors.length + C._warnings.length) := by
  refine ⟨_, _, foldToError_concat below P C, rfl, by simp, rfl, rfl, rfl, ?_⟩
  simp [Nat.add_assoc]

/-- C6: on a stack of depth at least two, with parent `P` beneath the top `C`,
`foldToWarning` leaves a stack one shorter whose new top has `P`'s name, exactly `P`'s
errors, and `P`'s warnings followed by `C`'s errors and then `C`'s warnings, each
renamed by composition with `P`'s name; the warnings list grows by
`|C.errors| + |C.warnings|`. -/
theorem foldToWarning_demotes_errors (below : List ErrorContext) (P C : ErrorContext) :
    ∃ e1 top, Error.foldToWarning ⟨below ++ [P, C]⟩ = some e1 ∧
      e1._contexts = below ++ [top] ∧
      e1._contexts.length + 1 = (below ++ [P, C]).length ∧
      top._contextName = P._contextName ∧
      top._errors = P._errors ∧
      top._warnings =
        P._warnings ++
          C._errors.map (fun m => { contextName := composedName P._contextName m.contextName,
                                    message := m.message }) ++
          C._warnings.map (fun m => { contextName := composedName P._contextName m.contextName,
                                      message := m.message }) ∧
      top._warnings.length = P._warnings.length + (C._errors.length + C._warnings.length) := by
  refine ⟨_, _, foldToWarning_concat below P C, rfl, by simp, rfl, rfl, rfl, ?_⟩
  simp [Nat.add_assoc]

/-- C7, on the code: for a receiver `r` and an aggregator `o` that is another object,
of any depth, `r.push(o)` puts exactly one context on top of `r`'s unchanged contexts,
with an empty name and with the error texts, and likewise the warning texts, of `o`'s
contexts from the bottom one to the top one; so it does for `o` the receiver itself
holding two contexts or more.  For `o` the receiver itself holding the single context
it was constructed with, as in `Error r("root"); r.addError("e"); r.push(r);`, the
texts are read through `copy._top` after `push()` has freed the context it points at:
the call is undefined and the new context need not hold `o`'s messages. -/
theorem pushError_of_receiver_itself (r : Error) (below : List ErrorContext)
    (p t c : ErrorContext) (reallocates : Bool) :
    Error.pushError ⟨[c]⟩ (ErrorRef.receiver true) = none ∧
    (Op.run [Op.addError "e"] (Error.init "root") = some ⟨[⟨"root", [⟨"root", "e"⟩], []⟩]⟩ ∧
      Error.pushError ⟨[⟨"root", [⟨"root", "e"⟩], []⟩]⟩ (ErrorRef.receiver true) = none) ∧
    (∃ top, r.pushError (ErrorRef.other ⟨below ++ [t]⟩) = some ⟨r._contexts ++ [top]⟩ ∧
      top._contextName = "" ∧
      top._errors.map (fun m => m.message) =
        (below ++ [t]).flatMap (fun x => x._errors.map (fun m => m.message)) ∧
      top._warnings.map (fun m => m.message) =
        (below ++ [t]).flatMap (fun x => x._warnings.map (fun m => m.message))) ∧
    (∃ top, Error.pushError ⟨below ++ [p, t]⟩ (ErrorRef.receiver reallocates) =
        some ⟨below ++ [p, t] ++ [top]⟩ ∧
      top._contextName = "" ∧
      top._errors.map (fun m => m.message) =
        (below ++ [p, t]).flatMap (fun x => x._errors.map (fun m => m.message)) ∧
      top._warnings.map (fun m => m.message) =
        (below ++ [p, t]).flatMap (fun x => x._warnings.map (fun m => m.message))) := by
  refine ⟨pushError_receiver_single_full c, ⟨by decide, pushError_receiver_single_full _⟩,
    ⟨_, pushError_concat r below t, rfl, collapsed_error_texts below t,
      collapsed_warning_texts below t⟩,
    ⟨_, pushError_receiver_deep below p t reallocates, rfl, ?_, ?_⟩⟩
  · have h := collapsed_error_texts (below ++ [p]) t
    simpa using h
  · have h := collapsed_warning_texts (below ++ [p]) t
    simpa using h

/-- C8, as stated, fails on the receiver `Error("main")` with `e1 = "e1"` and
`e2 = "e2"`: the context put on the receiver holds two errors, the one of `root`
(tagged `root`) and the one of `fn` (tagged `root > fn`), so it is not a context
holding a single error. -/
theorem pushError_root_fn_two_errors :
    Op.apply (Op.pushError "root" [Op.addError "e1", Op.push "fn", Op.addError "e2"])
        (Error.init "main") =
      some ⟨[ErrorContext.init "main",
             { _contextName := "",
               _errors := [⟨"root", "e1"⟩, ⟨"root > fn", "e2"⟩],
               _warnings := [] }]⟩ ∧
    ¬ ∃ top, Op.apply (Op.pushError "root" [Op.addError "e1", Op.push "fn", Op.addError "e2"])
          (Error.init "main") = some ⟨(Error.init "main")._contexts ++ [top]⟩ ∧
        top._errors.length = 1 := by
  have hval : Op.apply (Op.pushError "root" [Op.addError "e1", Op.push "fn", Op.addError "e2"])
        (Error.init "main") =
      some ⟨[ErrorContext.init "main",
             { _contextName := "",
               _errors := [⟨"root", "e1"⟩, ⟨"root > fn", "e2"⟩],
               _warnings := [] }]⟩ := by decide
  refine ⟨hval, ?_⟩
  rintro ⟨top, hrun, hlen⟩
  rw [hval] at hrun
  simp [Error.init] at hrun
  rw [← hrun] at hlen
  simp at hlen

/-- C8, amended: for every receiver, absorbing with `push(Aggregator)` the aggregator
built as `Error("root")`, `addError(e1)`, `push("fn")`, `addError(e2)` and left
unfolded puts exactly one new context on the receiver; it has an empty name, no
warnings and two errors, `e1` tagged `root` followed by `e2` tagged `root > fn`. -/
theorem pushError_root_fn (r : Error) (e1 e2 : String) :
    Op.apply (Op.pushError "root" [Op.addError e1, Op.push "fn", Op.addError e2]) r =
      some ⟨r._contexts ++
        [{ _contextName := "",
           _errors := [⟨"root", e1⟩, ⟨"root > fn", e2⟩],
           _warnings := [] }]⟩ := by
  have hbuilt : Op.run [Op.addError e1, Op.push "fn", Op.addError e2] (Error.init "root") =
      some ⟨[⟨"root", [⟨"root", e1⟩], []⟩] ++ [⟨"fn", [⟨"fn", e2⟩], []⟩]⟩ := by
    simp [Op.run, Op.apply, Error.init, Error.addError, Error.onTop, Error.push,
      ErrorContext.addError, ErrorContext.init]
  simp only [Op.apply, hbuilt, pushError_concat]
  simp [merged, renamed, composedName]

/-- C9: on an aggregator whose sole context is `C`, `pop` returns `C` itself (name,
errors and warnings in order) and leaves depth one with a current context that has an
empty name, no errors and no warnings. -/
theorem pop_sole_context (C : ErrorContext) :
    ∃ e1, Error.pop ⟨[C]⟩ = some (C, e1) ∧
      e1._contexts.length = 1 ∧
      e1.getCurrentContext = some { _contextName := "", _errors := [], _warnings := [] } := by
  exact ⟨_, pop_single C, rfl, rfl⟩

/-- C10: on any aggregator (at least one context) and for any name `n`, `push(n)`
followed at once by `pop()` returns a context named `n` with no errors and no
warnings, and leaves the aggregator exactly as it was before the push. -/
theorem push_then_pop (e : Error) (n : String) (h : 1 ≤ e._contexts.length) :
    (e.push n).pop = some ({ _contextName := n, _errors := [], _warnings := [] }, e) := by
  rcases e with ⟨l⟩
  rcases nil_or_top l with h0 | ⟨below, t, h1⟩
  · subst h0
    simp at h
  · subst h1
    have hpush : (Error.mk (below ++ [t])).push n = ⟨below ++ [t, ErrorContext.init n]⟩ := by
      simp [Error.push]
    rw [hpush, pop_concat]
    rfl

/-- The statement of C10 on a two-context aggregator holding messages, with the
empty name. -/
theorem push_then_pop_witness :
    1 ≤ (Error.mk [⟨"root", [⟨"root", "a"⟩], []⟩, ⟨"fn", [], [⟨"fn", "w"⟩]⟩])._contexts.length ∧
    ((Error.mk [⟨"root", [⟨"root", "a"⟩], []⟩, ⟨"fn", [], [⟨"fn", "w"⟩]⟩]).push "").pop =
      some ({ _contextName := "", _errors := [], _warnings := [] },
            Error.mk [⟨"root", [⟨"root", "a"⟩], []⟩, ⟨"fn", [], [⟨"fn", "w"⟩]⟩]) :=
  ⟨by decide, push_then_pop _ _ (by decide)⟩

/-- C11: for `k ≥ 1` levels `(n1, ins1), ..., (nk, insk)`, the aggregator built as
`Error(n1)`, the insertions `ins1`, then `push(ni)` and the insertions `insi` for each
further level, is left by `k - 1` calls to `fold()` with a single context; it is named
`n1` and holds the texts inserted at level `i` tagged with the `" > "`-join of the
non-empty names among `n1..ni`.  That join is empty exactly when all the names are
empty, and it is `root > function > innerBlock` for the three names of the
documentation. -/
theorem nested_folds_join_names (n1 : String) (ins1 : List Insertion)
    (rest : List (String × List Insertion)) :
    Op.run (ins1.map Insertion.toOp ++ levelCalls rest ++ List.replicate rest.length Op.fold)
        (Error.init n1) =
      some ⟨[{ _contextName := n1,
               _errors := taggedErrors [] ((n1, ins1) :: rest),
               _warnings := taggedWarnings [] ((n1, ins1) :: rest) }]⟩ ∧
    (∀ names : List String, chevronJoin names = "" ↔ ∀ n ∈ names, n = "") ∧
    chevronJoin ["root", "function", "innerBlock"] = "root > function > innerBlock" ∧
    Op.run [Op.addError "a", Op.push "function", Op.addWarning "b", Op.push "innerBlock",
            Op.addError "c", Op.fold, Op.fold] (Error.init "root") =
      some ⟨[{ _contextName := "root",
               _errors := [⟨"root", "a"⟩, ⟨"root > function > innerBlock", "c"⟩],
               _warnings := [⟨"root > function", "b"⟩] }]⟩ := by
  refine ⟨?_, chevronJoin_eq_empty_iff, by decide, by decide⟩
  have hinit : Error.init n1 = ⟨[] ++ [ErrorContext.init n1]⟩ := rfl
  rw [List.append_assoc, run_append, hinit, run_insertions]
  simp only [Option.some_bind]
  rw [run_append, run_levelCalls]
  simp only [Option.some_bind, List.nil_append, List.singleton_append]
  have hlen : rest.length = (rest.map levelContext).length := by simp
  rw [hlen, run_folds]
  have hcol := collapseFrom_levels (n1, ins1) rest
  simp only [levelContext] at hcol
  simp only [ErrorContext.init, List.nil_append]
  rw [hcol]

/-- C12: whatever the aggregator holds, `clear(x)` leaves a stack of depth exactly one
whose current context is named `x` and has no errors and no warnings. -/
theorem clear_resets (e : Error) (x : String) :
    (e.clear x)._contexts.length = 1 ∧
    (e.clear x).getCurrentContext =
      some { _contextName := x, _errors := [], _warnings := [] } ∧
    (e.clear x).hasErrors = some false ∧
    (e.clear x).hasWarnings = some false ∧
    (e.clear x).totalMessages = 0 := by
  refine ⟨rfl, rfl, rfl, rfl, rfl⟩

/-- C13: `hasErrors()` is true exactly when the errors list of the top context is
non-empty, and `hasWarnings()` exactly when its warnings list is, whatever the
contexts beneath hold.  In particular after `addError(m)` and `push(n)` the answer of
`hasErrors()` is false, and it is true again once the stack is folded or popped back. -/
theorem hasErrors_looks_at_top_only (below : List ErrorContext) (t : ErrorContext)
    (m n : String) :
    (∃ b, Error.hasErrors ⟨below ++ [t]⟩ = some b ∧ (b = true ↔ t._errors ≠ [])) ∧
    (∃ b, Error.hasWarnings ⟨below ++ [t]⟩ = some b ∧ (b = true ↔ t._warnings ≠ [])) ∧
    (∃ e1, Error.addError ⟨below ++ [t]⟩ m = some e1 ∧
      e1.hasErrors = some true ∧
      (e1.push n).hasErrors = some false ∧
      (e1.push n).fold.bind Error.hasErrors = some true ∧
      (e1.push n).pop.bind (fun r => r.2.hasErrors) = some true) := by
  refine ⟨⟨_, hasErrors_concat below t, isEmpty_not_iff _⟩,
    ⟨_, hasWarnings_concat below t, isEmpty_not_iff _⟩, ?_⟩
  refine ⟨_, onTop_concat below t _, ?_, ?_, ?_, ?_⟩
  · rw [hasErrors_concat]
    simp [ErrorContext.addError]
  · simp only [Error.push]
    rw [hasErrors_concat]
    simp [ErrorContext.init]
  · simp only [Error.push, List.append_assoc, List.singleton_append]
    rw [fold_concat]
    simp only [Option.some_bind]
    rw [hasErrors_concat]
    simp [merged, ErrorContext.addError]
  · simp only [Error.push, List.append_assoc, List.singleton_append]
    rw [pop_concat]
    simp only [Option.some_bind]
    rw [hasErrors_concat]
    simp [ErrorContext.addError]

/-- C14: each plain-string insertion on the aggregator appends the given texts, in
input order and tagged with the top context's own name, to the targeted list of the
top context; the depth, the contexts beneath, the top's name and its other list stay
as they were. -/
theorem plain_insertions_touch_one_list (below : List ErrorContext) (t : ErrorContext)
    (m : String) (ms : List String) :
    Error.addError ⟨below ++ [t]⟩ m =
      some ⟨below ++ [{ _contextName := t._contextName,
                        _errors := t._errors ++ [⟨t._contextName, m⟩],
                        _warnings := t._warnings }]⟩ ∧
    Error.addWarning ⟨below ++ [t]⟩ m =
      some ⟨below ++ [{ _contextName := t._contextName,
                        _errors := t._errors,
                        _warnings := t._warnings ++ [⟨t._contextName, m⟩] }]⟩ ∧
    Error.addErrors ⟨below ++ [t]⟩ ms =
      some ⟨below ++ [{ _contextName := t._contextName,
                        _errors := t._errors ++ ms.map (fun x => ⟨t._contextName, x⟩),
                        _warnings := t._warnings }]⟩ ∧
    Error.addWarnings ⟨below ++ [t]⟩ ms =
      some ⟨below ++ [{ _contextName := t._contextName,
                        _errors := t._errors,
                        _warnings := t._warnings ++ ms.map (fun x => ⟨t._contextName, x⟩) }]⟩ := by
  refine ⟨?_, ?_, ?_, ?_⟩
  · simp [Error.addError, onTop_concat, ErrorContext.addError]
  · simp [Error.addWarning, onTop_concat, ErrorContext.addWarning]
  · simp [Error.addErrors, onTop_concat, addErrors_eq]
  · simp [Error.addWarnings, onTop_concat, addWarnings_eq]

/-- C15: on a context created with name `n`, after any interleaved sequence of
`addError` and `addWarning` calls `getErrors()` is the list of the `addError` texts in
call order and `getWarnings()` the list of the `addWarning` texts in call order, every
message tagged `n`; nothing is reordered or merged. -/
theorem context_keeps_call_order (n : String) (ins : List Insertion) :
    (ins.foldl (fun acc i => i.onContext acc) (ErrorContext.init n)).getErrors =
      (Insertion.errorTexts ins).map (fun m => ⟨n, m⟩) ∧
    (ins.foldl (fun acc i => i.onContext acc) (ErrorContext.init n)).getWarnings =
      (Insertion.warningTexts ins).map (fun m => ⟨n, m⟩) := by
  rw [foldl_onContext]
  simp [ErrorContext.getErrors, ErrorContext.getWarnings, ErrorContext.init]

/-- C16: on every aggregator (any depth, depth one included) each of `fold()`,
`foldToError()` and `foldToWarning()` leaves the number of messages held across the
whole stack unchanged, and every message text held before the call is still held
after it. -/
theorem folds_drop_no_message (e : Error) (h : 1 ≤ e._contexts.length) :
    (∃ e1, e.fold = some e1 ∧ e1.totalMessages = e.totalMessages ∧
      ∀ txt ∈ e.allTexts, txt ∈ e1.allTexts) ∧
    (∃ e1, e.foldToError = some e1 ∧ e1.totalMessages = e.totalMessages ∧
      ∀ txt ∈ e.allTexts, txt ∈ e1.allTexts) ∧
    (∃ e1, e.foldToWarning = some e1 ∧ e1.totalMessages = e.totalMessages ∧
      ∀ txt ∈ e.allTexts, txt ∈ e1.allTexts) := by
  have hne : e._contexts ≠ [] := by
    intro h0
    rw [h0] at h
    simp at h
  rcases ne_nil_cases e hne with ⟨c, rfl⟩ | ⟨below, p, c, rfl⟩
  · refine ⟨⟨_, fold_single c, ?_, ?_⟩, ⟨_, foldToError_single c, ?_, ?_⟩,
      ⟨_, foldToWarning_single c, ?_, ?_⟩⟩
    · simp [Error.totalMessages]
    · simp [Error.allTexts]
    · simp [Error.totalMessages]
    · simp [Error.allTexts]
    · simp [Error.totalMessages]
    · simp [Error.allTexts]
  · have hstack : below ++ [p, c] = below ++ [p] ++ [c] := by simp
    refine ⟨⟨_, fold_concat below p c, ?_, ?_⟩, ⟨_, foldToError_concat below p c, ?_, ?_⟩,
      ⟨_, foldToWarning_concat below p c, ?_, ?_⟩⟩
    · rw [hstack]
      simp only [totalMessages_concat, merged, List.length_append, List.length_map]
      omega
    · rw [hstack]
      simp only [allTexts_concat, merged, List.map_append, renamed_message, List.mem_append]
      tauto
    · rw [hstack]
      simp only [totalMessages_concat, List.length_append, List.length_map]
      omega
    · rw [hstack]
      simp only [allTexts_concat, List.map_append, renamed_message, List.mem_append]
      tauto
    · rw [hstack]
      simp only [totalMessages_concat, List.length_append, List.length_map]
      omega
    · rw [hstack]
      simp only [allTexts_concat, List.map_append, renamed_message, List.mem_append]
      tauto

/-- The statement of C16 on a two-context aggregator holding two errors and a
warning. -/
theorem folds_drop_no_message_witness :
    1 ≤ (Error.mk [⟨"root", [⟨"root", "a"⟩], []⟩,
                   ⟨"fn", [⟨"fn", "b"⟩], [⟨"fn", "w"⟩]⟩])._contexts.length ∧
    ((∃ e1, (Error.mk [⟨"root", [⟨"root", "a"⟩], []⟩,
                       ⟨"fn", [⟨"fn", "b"⟩], [⟨"fn", "w"⟩]⟩]).fold = some e1 ∧
        e1.totalMessages =
          (Error.mk [⟨"root", [⟨"root", "a"⟩], []⟩,
                     ⟨"fn", [⟨"fn", "b"⟩], [⟨"fn", "w"⟩]⟩]).totalMessages ∧
        ∀ txt ∈ (Error.mk [⟨"root", [⟨"root", "a"⟩], []⟩,
                           ⟨"fn", [⟨"fn", "b"⟩], [⟨"fn", "w"⟩]⟩]).allTexts,
          txt ∈ e1.allTexts) ∧
      (∃ e1, (Error.mk [⟨"root", [⟨"root", "a"⟩], []⟩,
                       ⟨"fn", [⟨"fn", "b"⟩], [⟨"fn", "w"⟩]⟩]).foldToError = some e1 ∧
        e1.totalMessages =
          (Error.mk [⟨"root", [⟨"root", "a"⟩], []⟩,
                     ⟨"fn", [⟨"fn", "b"⟩], [⟨"fn", "w"⟩]⟩]).totalMessages ∧
        ∀ txt ∈ (Error.mk [⟨"root", [⟨"root", "a"⟩], []⟩,
                           ⟨"fn", [⟨"fn", "b"⟩], [⟨"fn", "w"⟩]⟩]).allTexts,
          txt ∈ e1.allTexts) ∧
      (∃ e1, (Error.mk [⟨"root", [⟨"root", "a"⟩], []⟩,
                       ⟨"fn", [⟨"fn", "b"⟩], [⟨"fn", "w"⟩]⟩]).foldToWarning = some e1 ∧
        e1.totalMessages =
          (Error.mk [⟨"root", [⟨"root", "a"⟩], []⟩,
                     ⟨"fn", [⟨"fn", "b"⟩], [⟨"fn", "w"⟩]⟩]).totalMessages ∧
        ∀ txt ∈ (Error.mk [⟨"root", [⟨"root", "a"⟩], []⟩,
                           ⟨"fn", [⟨"fn", "b"⟩], [⟨"fn", "w"⟩]⟩]).allTexts,
          txt ∈ e1.allTexts)) :=
  ⟨by decide, folds_drop_no_message _ (by decide)⟩

/-- C17: the text `writeTo` adds to the stream is, for the errors of the top context
in list order, the lines `Error : [contextName] : message`, followed, for its warnings
in list order, by the lines `Warning : [contextName] : message`, each line ended by a
newline; the contexts beneath the top contribute nothing.  The last conjunct is the
output for a two-context aggregator. -/
theorem writeTo_emits_top_context (below : List ErrorContext) (t : ErrorContext)
    (stream : String) :
    Error.writeTo ⟨below ++ [t]⟩ stream =
      some (stream ++
        String.join (t._errors.map
          (fun m => "Error : [" ++ m.contextName ++ "] : " ++ m.message ++ "\n")) ++
        String.join (t._warnings.map
          (fun m => "Warning : [" ++ m.contextName ++ "] : " ++ m.message ++ "\n"))) ∧
    Error.writeTo ⟨[⟨"root", [⟨"root", "hidden"⟩], []⟩,
                    ⟨"fn", [⟨"fn", "a"⟩, ⟨"fn > inner", "b"⟩], [⟨"", "w"⟩]⟩]⟩ "" =
      some "Error : [fn] : a\nError : [fn > inner] : b\nWarning : [] : w\n" := by
  refine ⟨?_, by decide⟩
  simp only [Error.writeTo, Error.getCurrentContext, ErrorContext.getErrors,
    ErrorContext.getWarnings, List.getLast?_concat, write_errors_loop, write_warnings_loop]
  rfl

/-- C18: `writeErrorsTo` only reads the aggregator, so a second call right after the
first adds to the stream the very text the first call added. -/
theorem writeErrorsTo_twice (e : Error) (stream : String) (h : 1 ≤ e._contexts.length) :
    ∃ out, e.writeErrorsTo stream = some (stream ++ out) ∧
      e.writeErrorsTo (stream ++ out) = some (stream ++ out ++ out) := by
  rcases e with ⟨l⟩
  rcases nil_or_top l with h0 | ⟨below, t, h1⟩
  · subst h0
    simp at h
  · subst h1
    exact ⟨_, writeErrorsTo_concat below t stream, writeErrorsTo_concat below t _⟩

/-- The statement of C18 on an aggregator holding two errors, writing to an empty
stream. -/
theorem writeErrorsTo_twice_witness :
    1 ≤ (Error.mk [⟨"root", [⟨"root", "a"⟩, ⟨"root > fn", "b"⟩], [⟨"root", "w"⟩]⟩])._contexts.length ∧
    ∃ out, (Error.mk [⟨"root", [⟨"root", "a"⟩, ⟨"root > fn", "b"⟩], [⟨"root", "w"⟩]⟩]).writeErrorsTo
          "" = some ("" ++ out) ∧
      (Error.mk [⟨"root", [⟨"root", "a"⟩, ⟨"root > fn", "b"⟩], [⟨"root", "w"⟩]⟩]).writeErrorsTo
          ("" ++ out) = some ("" ++ out ++ out) :=
  ⟨by decide, writeErrorsTo_twice _ _ (by decide)⟩

/-- C19: on an aggregator whose sole context is `C`, `fold()` returns and leaves depth
one with a top context that has the empty name and exactly `C`'s errors and warnings,
in order, context names and texts untouched; on a sole context with the empty name it
changes nothing. -/
theorem fold_on_sole_context (C : ErrorContext) (errors warnings : List basicError) :
    (∃ e1, Error.fold ⟨[C]⟩ = some e1 ∧
      e1._contexts.length = 1 ∧
      e1.getCurrentContext =
        some { _contextName := "", _errors := C._errors, _warnings := C._warnings }) ∧
    Error.fold ⟨[⟨"", errors, warnings⟩]⟩ = some ⟨[⟨"", errors, warnings⟩]⟩ := by
  exact ⟨⟨_, fold_single C, rfl, rfl⟩, fold_single _⟩

/-- C20: on a copy of depth `d ≥ 1` the collapsing loop of `push(Error const&)`
terminates: given room for `d - 1` iterations or more it calls `fold()` exactly
`d - 1` times, the depths left by the successive calls being `d - 1, d - 2, ..., 1`
(one less each time), and it exits on a copy of depth exactly one, the copy
`Error.foldLoop` returns. -/
theorem collapsing_loop_terminates (copy : Error) (h : 1 ≤ copy._contexts.length) :
    ∃ depths final,
      (∀ fuel, copy._contexts.length - 1 ≤ fuel →
        Error.foldLoopTrace fuel copy = some (depths, final) ∧
        Error.foldLoop fuel copy = some final) ∧
      depths = (List.range' 1 (copy._contexts.length - 1)).reverse ∧
      depths.length = copy._contexts.length - 1 ∧
      final._contexts.length = 1 := by
  rcases copy with ⟨l⟩
  rcases nil_or_top l with h0 | ⟨below, t, h1⟩
  · subst h0
    simp at h
  · subst h1
    have hd : (Error.mk (below ++ [t]))._contexts.length - 1 = below.length := by simp
    rw [hd]
    refine ⟨_, _, fun fuel hfuel => ⟨foldLoopTrace_concat fuel below t hfuel,
      foldLoop_concat fuel below t hfuel⟩, rfl, by simp, rfl⟩

/-- The statement of C20 on a copy of depth three: two calls, leaving depths two and
one. -/
theorem collapsing_loop_terminates_witness :
    1 ≤ (Error.mk [⟨"root", [⟨"root", "a"⟩], []⟩, ⟨"fn", [], []⟩,
                   ⟨"inner", [⟨"inner", "b"⟩], []⟩])._contexts.length ∧
    ∃ depths final,
      (∀ fuel, (Error.mk [⟨"root", [⟨"root", "a"⟩], []⟩, ⟨"fn", [], []⟩,
                          ⟨"inner", [⟨"inner", "b"⟩], []⟩])._contexts.length - 1 ≤ fuel →
        Error.foldLoopTrace fuel (Error.mk [⟨"root", [⟨"root", "a"⟩], []⟩, ⟨"fn", [], []⟩,
                          ⟨"inner", [⟨"inner", "b"⟩], []⟩]) = some (depths, final) ∧
        Error.foldLoop fuel (Error.mk [⟨"root", [⟨"root", "a"⟩], []⟩, ⟨"fn", [], []⟩,
                          ⟨"inner", [⟨"inner", "b"⟩], []⟩]) = some final) ∧
      depths = (List.range' 1 ((Error.mk [⟨"root", [⟨"root", "a"⟩], []⟩, ⟨"fn", [], []⟩,
                          ⟨"inner", [⟨"inner", "b"⟩], []⟩])._contexts.length - 1)).reverse ∧
      depths.length = (Error.mk [⟨"root", [⟨"root", "a"⟩], []⟩, ⟨"fn", [], []⟩,
                          ⟨"inner", [⟨"inner", "b"⟩], []⟩])._contexts.length - 1 ∧
      final._contexts.length = 1 :=
  ⟨by decide, collapsing_loop_terminates _ (by decide)⟩

/-- C21: the name the cross-context loops compute is `c` if `p` is empty, `p` if `c`
is empty and `p + " > " + c` otherwise; it is associative, has the empty string as
identity on both sides, and is empty only when both names are empty. -/
theorem formatName_monoid (a b c : String) :
    formatName a b =
      (if a = "" then b else if b = "" then a else a ++ " > " ++ b) ∧
    formatName (formatName a b) c = formatName a (formatName b c) ∧
    formatName "" a = a ∧
    formatName a "" = a ∧
    (formatName a b = "" → a = "" ∧ b = "") := by
  simp only [formatName_eq]
  exact ⟨rfl, composedName_assoc a b c, composedName_empty_left a,
    composedName_empty_right a, (composedName_eq_empty_iff a b).mp⟩

/-- C22, on the code: for every value of `GLFW_MOUSE_BUTTON_LAST`, on an event as the
constructor leaves it, the write of `_windowMouseButtonCallback` is inside
`_buttonsStates` for every button `0 ≤ b < GLFW_MOUSE_BUTTON_LAST`, and falls outside
the array for the button `b = GLFW_MOUSE_BUTTON_LAST`, which GLFW can report: the array
has `GLFW_MOUSE_BUTTON_LAST` elements, one too few. -/
theorem mouse_button_last_out_of_bounds (GLFW_MOUSE_BUTTON_LAST : Nat)
    (GLFW_PRESS action : Int) :
    (∀ b : Nat, b < GLFW_MOUSE_BUTTON_LAST →
      ∃ ev, _windowMouseButtonCallback GLFW_PRESS (Window.Event.init GLFW_MOUSE_BUTTON_LAST)
        (b : Int) action = some ev) ∧
    _windowMouseButtonCallback GLFW_PRESS (Window.Event.init GLFW_MOUSE_BUTTON_LAST)
        (GLFW_MOUSE_BUTTON_LAST : Int) action = none ∧
    _windowMouseButtonCallback 1 (Window.Event.init 7) 7 1 = none ∧
    _windowMouseButtonCallback 1 (Window.Event.init 7) 6 1 =
      some ⟨[false, false, false, false, false, false, true]⟩ := by
  refine ⟨?_, ?_, by decide, by decide⟩
  · intro b hb
    simp [_windowMouseButtonCallback, Window.Event.init, hb]
  · simp [_windowMouseButtonCallback, Window.Event.init]

end Aby
